import Mathlib

/-!
# Verification of the EFS→S3 zip relay core

Shallow embedding of the repository's timeout-aware batch processing engine:

* `src/archive/extractor.ts` — streaming zip extraction with bomb limits
  (`extractZipStreaming`, `extractZip`);
* `src/content/parser.ts` — content classification (`createContentParser`);
* `src/upload/batcher.ts` — batch assembly (`createBatches`);
* `src/upload/uploader.ts` — batched upload with per-item outcomes
  (`tryUploadBatch`, `uploadFilesInChunks`, `partitionResults`);
* `src/index.ts` — the archive processor (`tryProcessZipFile`) and the
  invocation orchestrator (`processZips`).

Modelling conventions: Buffers are `String`s (only their length and identity
matter here); `uuid()` — an external RNG — is a supply `Nat → String`
consumed in call order; the S3 client is a function from full key and body
to an upload outcome; the Lambda clock `context.getRemainingTimeInMillis`
is a sequence `Nat → Nat` indexed by call count.  I/O-level stream failures
are a `readError` flag on an entry; archive-open failures (`corrupt`) occur
before any entry and are orthogonal to the claims, so extraction is
modelled from the parsed entry list.
-/

namespace Relay

/-- One logical file inside a zip archive, as yauzl would present it:
the central-directory `fileName` and `uncompressedSize` (the declared
size, which a hostile archive can understate), the actual decompressed
`content`, and whether opening/buffering its read stream fails. -/
structure RawEntry where
  fileName : String
  uncompressedSize : Nat
  content : String
  readError : Bool := false
deriving DecidableEq, Repr

/-- `ExtractedFile` from `src/archive/types.ts`: a name plus content. -/
structure ExtractedFile where
  name : String
  content : String
deriving DecidableEq, Repr

deriving instance DecidableEq for Except

/-- The `ZipError` variants of `src/errors` raised by the extractor. -/
inductive ZipErrKind where
  | corrupt
  | extraction
  | tooManyEntries (limit : Nat)
  | entryTooLarge (entryName : String) (limit : Nat)
  | tooLarge (limit : Nat)
deriving DecidableEq, Repr

/-- `DEFAULT_MAX_ENTRIES` in `src/archive/extractor.ts`. -/
def DEFAULT_MAX_ENTRIES : Nat := 10000

/-- `DEFAULT_MAX_ENTRY_SIZE` in `src/archive/extractor.ts` (10 MiB). -/
def DEFAULT_MAX_ENTRY_SIZE : Nat := 10 * 1024 * 1024

/-- `DEFAULT_MAX_TOTAL_SIZE` in `src/archive/extractor.ts` (200 MiB). -/
def DEFAULT_MAX_TOTAL_SIZE : Nat := 200 * 1024 * 1024

/-- `ExtractOptions` of `src/archive/extractor.ts`: all three limits are
optional, defaulted inside the extraction functions. -/
structure ExtractOptions where
  maxEntries : Option Nat := none
  maxEntrySize : Option Nat := none
  maxTotalSize : Option Nat := none
deriving DecidableEq, Repr

/-- `entry.fileName.endsWith('/')` — yauzl marks directory entries by a
trailing slash. -/
def isDirEntry (e : RawEntry) : Bool := e.fileName.toList.getLast? = some '/'

/-- The entry loop of `extractZipStreaming` (src/archive/extractor.ts
lines 93–149), threading the mutable `entryCount`.  Per non-directory
entry, in source order: increment the count and fail with
`tooManyEntries` when it exceeds `maxEntries`; fail with `entryTooLarge`
when the declared `uncompressedSize` exceeds `maxEntrySize`; fail with
`extraction` when the read stream cannot be opened/buffered; fail with
`entryTooLarge` when the actual decompressed length exceeds
`maxEntrySize`; otherwise yield the file and continue.  The result is
the list of yielded files together with the error, if any, that ends
the iteration. -/
def extractGo (maxEntries maxEntrySize : Nat) :
    List RawEntry → Nat → List ExtractedFile × Option ZipErrKind
  | [], _ => ([], none)
  | e :: rest, entryCount =>
    if isDirEntry e then extractGo maxEntries maxEntrySize rest entryCount
    else if entryCount + 1 > maxEntries then
      ([], some (.tooManyEntries maxEntries))
    else if e.uncompressedSize > maxEntrySize then
      ([], some (.entryTooLarge e.fileName maxEntrySize))
    else if e.readError then
      ([], some .extraction)
    else if e.content.length > maxEntrySize then
      ([], some (.entryTooLarge e.fileName maxEntrySize))
    else
      let r := extractGo maxEntries maxEntrySize rest (entryCount + 1)
      (⟨e.fileName, e.content⟩ :: r.1, r.2)

/-- `extractZipStreaming` (src/archive/extractor.ts lines 74–153).  Note
that, exactly as in the source, `options.maxTotalSize` is accepted by
`ExtractOptions` but never read by the streaming extractor: only
`maxEntries` and `maxEntrySize` are defaulted and enforced. -/
def extractZipStreaming (options : ExtractOptions) (entries : List RawEntry) :
    List ExtractedFile × Option ZipErrKind :=
  let maxEntries := options.maxEntries.getD DEFAULT_MAX_ENTRIES
  let maxEntrySize := options.maxEntrySize.getD DEFAULT_MAX_ENTRY_SIZE
  extractGo maxEntries maxEntrySize entries 0

/-- The consumer loop of the eager `extractZip` (src/archive/extractor.ts
lines 155–180): accumulate yielded files while checking the running
total size against `maxTotalSize`; a crossing aborts with `tooLarge`
before any later yield (and before the generator's own terminal error)
is observed. -/
def extractZipCollect (maxTotalSize : Nat) :
    List ExtractedFile → Nat → List ExtractedFile × Option Nat
  | [], _ => ([], none)
  | f :: rest, totalSize =>
    let totalSize := totalSize + f.content.length
    if totalSize > maxTotalSize then ([], some totalSize)
    else
      let r := extractZipCollect maxTotalSize rest totalSize
      (f :: r.1, r.2)

/-- `extractZip` (src/archive/extractor.ts lines 155–180): drive the
streaming extractor to completion, enforcing the cumulative
`maxTotalSize` bound over the yielded files. -/
def extractZip (options : ExtractOptions) (entries : List RawEntry) :
    Except ZipErrKind (List ExtractedFile) :=
  let maxTotalSize := options.maxTotalSize.getD DEFAULT_MAX_TOTAL_SIZE
  let streamed := extractZipStreaming options entries
  match extractZipCollect maxTotalSize streamed.1 0 with
  | (_, some _) => .error (.tooLarge maxTotalSize)
  | (files, none) =>
    match streamed.2 with
    | some e => .error e
    | none => .ok files

/-- Count of non-directory entries, i.e. how far `entryCount` advances. -/
def nonDirCount (entries : List RawEntry) : Nat :=
  (entries.filter (fun e => !isDirEntry e)).length

/-! ## Content classifier — `src/content/parser.ts`

A compiled JS regex is embedded by its observable behaviour:
* a naming regex is a function returning, for a given content, the first
  capture group of its first match — `none` covers both "no match" and
  "the pattern has no first group", `some ""` an empty capture (all of
  which are falsy for `match?.[1]`);
* a filter regex is its `test` predicate on the content. -/

/-- `ContentParser` as constructed by `createContentParser`
(src/content/parser.ts): the two optional compiled patterns. -/
structure ContentParser where
  filenameRegex : Option (String → Option String)
  filterRegex : Option (String → Bool)

/-- `extractFilename` of `createContentParser`: without a naming pattern
return the fallback; with one, return `match[1] + ".xml"` when the first
capture group is truthy (present and non-empty), else the fallback. -/
def ContentParser.extractFilename (p : ContentParser)
    (content fallbackName : String) : String :=
  match p.filenameRegex with
  | none => fallbackName
  | some re =>
    match re content with
    | some g => if g = "" then fallbackName else g ++ ".xml"
    | none => fallbackName

/-- `shouldFilter` of `createContentParser`: `false` without a filter
pattern, otherwise the pattern's `test` on the content. -/
def ContentParser.shouldFilter (p : ContentParser) (content : String) : Bool :=
  match p.filterRegex with
  | none => false
  | some re => re content

/-! ## S3 path helpers — `src/types/branded.ts` -/

/-- `part.replace(/^\/+|\/+$/g, '')`: strip leading and trailing runs of
slashes. -/
def stripSlashes (s : String) : String :=
  String.mk (((s.toList.dropWhile (· = '/')).reverse.dropWhile (· = '/')).reverse)

/-- `joinS3Path` (src/types/branded.ts): drop empty parts, strip edge
slashes of each part, drop parts that became empty, join with `/`. -/
def joinS3Path (parts : List String) : String :=
  String.intercalate "/"
    (((parts.filter (· ≠ "")).map stripSlashes).filter (· ≠ ""))

/-- The `S3Prefix` brand constructor (src/types/branded.ts): normalise by
stripping edge slashes and re-appending a single trailing slash when the
remainder is non-empty. -/
def s3PfxBrand (value : String) : String :=
  let normalised := stripSlashes value
  if normalised = "" then "" else normalised ++ "/"

/-! ## Batch assembly — `src/upload/batcher.ts` -/

/-- `FileToUpload`: destination key (relative to the batch prefix) plus
content. -/
structure FileToUpload where
  key : String
  content : String
deriving DecidableEq, Repr

/-- `Batch`: a fresh unique prefix plus the files of the batch.  (The
source field is named `prefix`; rendered `pfx` here.) -/
structure Batch where
  pfx : String
  files : List FileToUpload
deriving DecidableEq, Repr

/-- `createBatches` (src/upload/batcher.ts): slice the file list into
consecutive groups of `batchSize` (`for (let i = 0; i < files.length;
i += batchSize)`), giving each a fresh `S3Prefix(joinS3Path(prefixBase,
uuid()))`.  `uuids k` is the value of the `k`-th `uuid()` call.  The
source loop does not terminate for `batchSize = 0` (config validation
makes it positive); the model returns `[]` there. -/
def createBatches (uuids : Nat → String) (pfxBase : String) (batchSize : Nat) :
    List FileToUpload → Nat → List Batch
  | files, k =>
    if h : batchSize = 0 ∨ files = [] then []
    else
      ⟨s3PfxBrand (joinS3Path [pfxBase, uuids k]), files.take batchSize⟩ ::
        createBatches uuids pfxBase batchSize (files.drop batchSize) (k + 1)
termination_by files _ => files.length
decreasing_by
  simp only [not_or] at h
  have h1 : 0 < batchSize := Nat.pos_of_ne_zero h.1
  have h2 : 0 < files.length := List.length_pos.mpr h.2
  simp only [List.length_drop]
  omega

/-! ## Batch uploader — `src/upload/uploader.ts`

The S3 client is abstracted as `send : String → String → Option (Option
String)`: given the full destination key and the body it returns `some
etag?` when the PUT succeeds (the ETag itself may be absent) and `none`
when it fails; `tryUploadFile` wraps the failure as `S3Error.put(bucket,
key, cause)`.  The ContentMD5 integrity header is a pure function of the
body and does not affect control flow, so it is not modelled. -/

/-- `UPLOAD_CONCURRENCY` in `src/upload/uploader.ts`. -/
def UPLOAD_CONCURRENCY : Nat := 10

/-- `UploadSuccess`: the delivered key plus the store-assigned ETag. -/
structure UploadSuccess where
  key : String
  etag : Option String
deriving DecidableEq, Repr

/-- `S3Error.put(bucket, key, cause)` from `src/errors` (the wrapped
cause is abstracted away). -/
structure S3Err where
  bucket : String
  key : String
deriving DecidableEq, Repr

/-- `tryUploadFile` (src/upload/uploader.ts lines 38–61): one PUT of one
file, returning the per-item outcome as data. -/
def tryUploadFile (send : String → String → Option (Option String))
    (bucket key content : String) : Except S3Err UploadSuccess :=
  match send key content with
  | some etag => .ok ⟨key, etag⟩
  | none => .error ⟨bucket, key⟩

/-- The chunk loop of `uploadFilesInChunks` (src/upload/uploader.ts
lines 71–77), written with explicit fuel so that it is structural (one
slice consumes at least one file when `concurrency > 0`, so fuel
`files.length` is always enough): upload one slice of `concurrency`
files, then recurse on the rest, concatenating the per-item results in
order. -/
def uploadChunksGo (send : String → String → Option (Option String))
    (bucket : String) :
    Nat → List FileToUpload → Nat → List (Except S3Err UploadSuccess)
  | _, [], _ => []
  | 0, _ :: _, _ => []
  | fuel + 1, files@(_ :: _), concurrency =>
    if concurrency = 0 then []
    else
      ((files.take concurrency).map
          (fun f => tryUploadFile send bucket f.key f.content)) ++
        uploadChunksGo send bucket fuel (files.drop concurrency) concurrency

/-- `uploadFilesInChunks` (src/upload/uploader.ts lines 63–80): walk the
file list in slices of `concurrency` (`for (let i = 0; i < files.length;
i += concurrency)`), upload each slice, and concatenate the per-item
results in order.  The source loop does not terminate for
`concurrency = 0` (the only caller passes the constant 10); the model
returns `[]` there. -/
def uploadFilesInChunks (send : String → String → Option (Option String))
    (bucket : String) (files : List FileToUpload) (concurrency : Nat) :
    List (Except S3Err UploadSuccess) :=
  uploadChunksGo send bucket files.length files concurrency

/-- `partitionResults` (src/result/index.ts lines 37–52): split a result
list into successes and failures, each in input order. -/
def partitionResults (results : List (Except S3Err UploadSuccess)) :
    List UploadSuccess × List S3Err :=
  match results with
  | [] => ([], [])
  | r :: rest =>
    let p := partitionResults rest
    match r with
    | .ok v => (v :: p.1, p.2)
    | .error e => (p.1, e :: p.2)

/-- The two statuses of `BatchUploadResult`: `'full_success'` and
`'partial_success'` in the source. -/
inductive BatchStatus where
  | fullSuccess
  | partSuccess
deriving DecidableEq, Repr

/-- `BatchUploadResult` (src/upload/uploader.ts lines 25–36).  The
source's `full_success` variant has no `failed` field; here it carries
`failed = []`. -/
structure BatchUploadResult where
  status : BatchStatus
  pfx : String
  successful : List UploadSuccess
  failed : List S3Err
deriving DecidableEq, Repr

/-- `tryUploadBatch` (src/upload/uploader.ts lines 82–146): join each
file key onto the batch prefix, upload everything in concurrency-sized
chunks, partition the per-item outcomes, and report `partial_success`
when at least one item failed, else `full_success`.  It never raises for
an individual item failure — every outcome is data in the result. -/
def tryUploadBatch (send : String → String → Option (Option String))
    (bucket : String) (batch : Batch) : BatchUploadResult :=
  let filesToUpload := batch.files.map
    (fun file => FileToUpload.mk (joinS3Path [batch.pfx, file.key]) file.content)
  let results := uploadFilesInChunks send bucket filesToUpload UPLOAD_CONCURRENCY
  let p := partitionResults results
  if p.2.length > 0 then
    ⟨.partSuccess, batch.pfx, p.1, p.2⟩
  else
    ⟨.fullSuccess, batch.pfx, p.1, []⟩

/-! ## Archive processor — `tryProcessZipFile` in `src/index.ts` -/

/-- The relevant fields of the validated `Config` (src/config.ts):
patterns are carried separately as an already-constructed
`ContentParser`. -/
structure Config where
  sourceDir : String
  archiveDir : String
  failedDir : String
  destinationBucket : String
  s3PfxBase : String
  batchSize : Nat
  maxFilesPerInvocation : Nat
  timeoutBufferMs : Nat
  minFileAgeMs : Nat
  deleteOnSuccess : Bool

/-- The errors a `ZipFailure` can carry: a thrown `ZipError` from
extraction, or the synthetic
`ZipError.extraction(zipPath, Error(`${filesFailed} file(s) failed to
upload`))` built at src/index.ts lines 240–246. -/
inductive AppErr where
  | zip (k : ZipErrKind)
  | uploadFailures (n : Nat)
deriving DecidableEq, Repr

/-- `ZipSuccess` (src/index.ts lines 45–50). -/
structure ZipSuccess where
  zipPath : String
  filesExtracted : Nat
  filesUploaded : Nat
  filesFiltered : Nat
deriving DecidableEq, Repr

/-- `ZipFailure` (src/index.ts lines 52–58). -/
structure ZipFailure where
  zipPath : String
  error : AppErr
  filesExtracted : Nat
  filesUploaded : Nat
  filesFiltered : Nat
deriving DecidableEq, Repr

/-- The mutable locals of one `tryProcessZipFile` attempt (src/index.ts
lines 148–155) plus the index of the next `uuid()` call: the four
counters, the used-name set (a list with the same membership), the
pending batch, and its pre-generated prefix. -/
structure ProcSt where
  filesExtracted : Nat
  filteredCount : Nat
  filesUploaded : Nat
  filesFailed : Nat
  usedFilenames : List String
  currentBatch : List FileToUpload
  currentBatchPfx : String
  uuidIdx : Nat
deriving DecidableEq, Repr

/-- Initial processing state (src/index.ts lines 148–155): zero
counters, empty name set and batch, and the first batch prefix drawn
from `uuid()` call 0. -/
def procInit (uuids : Nat → String) (cfg : Config) : ProcSt where
  filesExtracted := 0
  filteredCount := 0
  filesUploaded := 0
  filesFailed := 0
  usedFilenames := []
  currentBatch := []
  currentBatchPfx := s3PfxBrand (joinS3Path [cfg.s3PfxBase, uuids 0])
  uuidIdx := 1

/-- `flushBatch` (src/index.ts lines 157–177): nothing to do on an empty
pending batch; otherwise upload it, add the successful count to
`filesUploaded`, add the failed count to `filesFailed` only in the
`partial_success` case, clear the pending batch and pre-generate the
next batch prefix from a fresh `uuid()`. -/
def flushBatch (send : String → String → Option (Option String))
    (uuids : Nat → String) (cfg : Config) (st : ProcSt) : ProcSt :=
  if st.currentBatch = [] then st
  else
    let batch : Batch := ⟨st.currentBatchPfx, st.currentBatch⟩
    let result := tryUploadBatch send cfg.destinationBucket batch
    { st with
      filesUploaded := st.filesUploaded + result.successful.length
      filesFailed := st.filesFailed +
        (if result.status = .partSuccess then result.failed.length else 0)
      currentBatch := []
      currentBatchPfx := s3PfxBrand (joinS3Path [cfg.s3PfxBase, uuids st.uuidIdx])
      uuidIdx := st.uuidIdx + 1 }

/-- The duplicate-name rewrite (src/index.ts lines 192–196): split at
the last `.` when the name has one (`ext` keeps the dot, as
`slice(lastIndexOf('.'))` does) and insert `-` plus the first 8
characters of a fresh `uuid()` between base and extension; without a
`.` the disambiguator is appended. -/
def resolveDup (filename u : String) : String :=
  let ext := if filename.toList.contains '.' then
    String.mk ('.' :: (filename.toList.reverse.takeWhile (· ≠ '.')).reverse)
  else ""
  let base := if filename.toList.contains '.' then
    String.mk (((filename.toList.reverse.dropWhile (· ≠ '.')).drop 1).reverse)
  else filename
  base ++ "-" ++ String.mk (u.data.take 8) ++ ext

/-- The body of the extraction loop in `tryProcessZipFile` (src/index.ts
lines 180–208) for one yielded file: count it as extracted; drop it
(counting it filtered) when `shouldFilter` matches; otherwise derive the
output name, disambiguate it when already used, record it used, append
the file to the pending batch, and flush when the pending batch reached
`cfg.batchSize`. -/
def processFile (send : String → String → Option (Option String))
    (uuids : Nat → String) (cfg : Config) (parser : ContentParser)
    (st : ProcSt) (file : ExtractedFile) : ProcSt :=
  let st := { st with filesExtracted := st.filesExtracted + 1 }
  let content := file.content
  if parser.shouldFilter content then
    { st with filteredCount := st.filteredCount + 1 }
  else
    let filename := parser.extractFilename content file.name
    let fr : String × Nat :=
      if filename ∈ st.usedFilenames then
        (resolveDup filename (uuids st.uuidIdx), st.uuidIdx + 1)
      else (filename, st.uuidIdx)
    let st := { st with
      usedFilenames := fr.1 :: st.usedFilenames
      currentBatch := st.currentBatch ++ [⟨fr.1, content⟩]
      uuidIdx := fr.2 }
    if st.currentBatch.length ≥ cfg.batchSize then
      flushBatch send uuids cfg st
    else st

/-- The state after the extraction loop of one archive attempt: the
streamed files folded through `processFile` from `procInit`.  When
extraction ends in an error, every file yielded before the error has
already been processed (flushes included) — the error surfaces only
after the last yield. -/
def procFoldSt (send : String → String → Option (Option String))
    (uuids : Nat → String) (cfg : Config) (parser : ContentParser)
    (entries : List RawEntry) : ProcSt :=
  ((extractZipStreaming {} entries).1).foldl
    (processFile send uuids cfg parser) (procInit uuids cfg)

/-- The state after the trailing `await flushBatch()` (src/index.ts line
210), reached only when extraction completed without error. -/
def procFinalSt (send : String → String → Option (Option String))
    (uuids : Nat → String) (cfg : Config) (parser : ContentParser)
    (entries : List RawEntry) : ProcSt :=
  flushBatch send uuids cfg (procFoldSt send uuids cfg parser entries)

/-- `tryProcessZipFile` (src/index.ts lines 140–288).  First component:
the returned `Result<ZipSuccess, ZipFailure>`.  Second component: the
`success` boolean handed to `tryRouteFile` — `allSucceeded = filesFailed
=== 0 && filesUploaded > 0` on the normal path (line 219), `false` on
the catch path (line 262).  On an extraction error the loop's throw
skips the trailing flush, the archive is routed as failed, and the
failure carries the counters accumulated so far; otherwise the pending
batch is flushed and the result is a failure exactly when `filesFailed >
0` (lines 235–247), else the success record (lines 249–255).  A routing
error never alters the result (it is only logged, lines 228–233). -/
def tryProcessZipFile (send : String → String → Option (Option String))
    (uuids : Nat → String) (cfg : Config) (parser : ContentParser)
    (zipPath : String) (entries : List RawEntry) :
    Except ZipFailure ZipSuccess × Bool :=
  let streamed := extractZipStreaming {} entries
  match streamed.2 with
  | some k =>
    let st := procFoldSt send uuids cfg parser entries
    (.error ⟨zipPath, .zip k, st.filesExtracted, st.filesUploaded,
      st.filteredCount⟩, false)
  | none =>
    let st := procFinalSt send uuids cfg parser entries
    let allSucceeded := decide (st.filesFailed = 0) && decide (0 < st.filesUploaded)
    if st.filesFailed > 0 then
      (.error ⟨zipPath, .uploadFailures st.filesFailed, st.filesExtracted,
        st.filesUploaded, st.filteredCount⟩, allSucceeded)
    else
      (.ok ⟨zipPath, st.filesExtracted, st.filesUploaded, st.filteredCount⟩,
        allSucceeded)

/-! ## Invocation orchestrator — `processZips` in `src/index.ts`

Directory listing and age filtering (`tryListZipFiles`) are external I/O
collaborators; the orchestrator is modelled from the listed eligible
file list.  Each listed archive carries its parsed entries.  `uuidsFor
k` is the `uuid()` supply consumed while processing the archive at
position `k` (each `uuid()` call is an independent fresh draw of an
external RNG, so per-archive supplies are equivalent to one global
stream). -/

/-- One eligible listed archive: its file name and its entries. -/
structure ZipArchive where
  name : String
  entries : List RawEntry

/-- `BatchResult` (src/index.ts lines 60–69): the response of one
invocation. -/
structure BatchResult where
  zipsProcessed : Nat
  zipsFailed : Nat
  totalFilesUploaded : Nat
  totalFilesFailed : Nat
  totalFilesFiltered : Nat
  successes : List ZipSuccess
  failures : List ZipFailure
  stoppedEarly : Bool
deriving DecidableEq, Repr

/-- `isValidZipFile` (src/index.ts lines 71–72): eligible names end in
`.zip` and are not dotfiles. -/
def isValidZipFile (filename : String) : Bool :=
  (filename.toList.reverse.take 4 = ".zip".toList.reverse) &&
    filename.toList.head? ≠ some '.'

/-- The per-archive loop of `processZips` (src/index.ts lines 357–384),
threading the position `k`, which is both the index into the
remaining-time sequence (the clock is probed exactly once per
iteration, before the archive is started) and the archive's listing
position.  When the probe reads below `cfg.timeoutBufferMs` the loop
stops with `stoppedEarly = true` and no further archive is started;
otherwise the archive is processed to completion and its result is
appended to the success or failure list. -/
def processLoop (send : String → String → Option (Option String))
    (uuidsFor : Nat → Nat → String) (cfg : Config) (parser : ContentParser)
    (times : Nat → Nat) :
    List ZipArchive → Nat → List ZipSuccess × List ZipFailure × Bool
  | [], _ => ([], [], false)
  | z :: rest, k =>
    if times k < cfg.timeoutBufferMs then ([], [], true)
    else
      let r := tryProcessZipFile send (uuidsFor k) cfg parser
        (cfg.sourceDir ++ "/" ++ z.name) z.entries
      let acc := processLoop send uuidsFor cfg parser times rest (k + 1)
      match r.1 with
      | .ok v => (v :: acc.1, acc.2.1, acc.2.2)
      | .error e => (acc.1, e :: acc.2.1, acc.2.2)

/-- `processZips` (src/index.ts lines 290–423) from the point where the
eligible listing `allZipFiles` is in hand: cap it at
`cfg.maxFilesPerInvocation`, run the deadline-gated loop, and aggregate.
`totalFilesUploaded` and `totalFilesFiltered` are summed over successes
and failures (lines 386–391); `totalFilesFailed` is the literal `0` of
line 413.  The source's early return for an empty list equals running
the loop on `[]`.  (The listing-failure path returns a synthetic
failure without attempting archives; it is outside this model.) -/
def processZips (send : String → String → Option (Option String))
    (uuidsFor : Nat → Nat → String) (cfg : Config) (parser : ContentParser)
    (times : Nat → Nat) (allZipFiles : List ZipArchive) : BatchResult :=
  let zipFiles := allZipFiles.take cfg.maxFilesPerInvocation
  let r := processLoop send uuidsFor cfg parser times zipFiles 0
  { zipsProcessed := r.1.length
    zipsFailed := r.2.1.length
    totalFilesUploaded := (r.1.map (·.filesUploaded)).sum +
      (r.2.1.map (·.filesUploaded)).sum
    totalFilesFailed := 0
    totalFilesFiltered := (r.1.map (·.filesFiltered)).sum +
      (r.2.1.map (·.filesFiltered)).sum
    successes := r.1
    failures := r.2.1
    stoppedEarly := r.2.2 }

/-- The same loop with the deadline gate removed: every archive of the
list is processed.  Used to state which results the gated loop
produces. -/
def runAll (send : String → String → Option (Option String))
    (uuidsFor : Nat → Nat → String) (cfg : Config) (parser : ContentParser) :
    List ZipArchive → Nat → List ZipSuccess × List ZipFailure
  | [], _ => ([], [])
  | z :: rest, k =>
    let r := tryProcessZipFile send (uuidsFor k) cfg parser
      (cfg.sourceDir ++ "/" ++ z.name) z.entries
    let acc := runAll send uuidsFor cfg parser rest (k + 1)
    match r.1 with
    | .ok v => (v :: acc.1, acc.2)
    | .error e => (acc.1, e :: acc.2)

end Relay

namespace Relay

/-! ## Name deduplication trace — src/index.ts lines 189–198

`dedupTrace` is the output-name stream of one archive attempt: the
candidate names (as produced by `parser.extractFilename` for the kept
files, in order) run through exactly the collision logic of
`processFile` — first occurrence passes unchanged, an already-used name
is rewritten by `resolveDup` with a fresh `uuid()`, and every emitted
name is recorded used.  `i` is the index of the next RNG draw; inside
`tryProcessZipFile` the same stream also feeds batch prefixes, which
only shifts which draws are consumed (each draw is independent and
fresh). -/

/-- The emitted output names for a list of candidate names, given the
already-used set and the next RNG index. -/
def dedupTrace (uuids : Nat → String) :
    List String → List String → Nat → List String
  | [], _, _ => []
  | c :: cs, used, i =>
    if c ∈ used then
      let fn := resolveDup c (uuids i)
      fn :: dedupTrace uuids cs (fn :: used) (i + 1)
    else
      c :: dedupTrace uuids cs (c :: used) i

/-- The freshness assumption of claim C7, checked along the same run:
every disambiguated name must itself be new at the moment it is
generated.  (The source does not re-check this — a colliding
disambiguated name would be kept as-is.) -/
def dedupFresh (uuids : Nat → String) :
    List String → List String → Nat → Bool
  | [], _, _ => true
  | c :: cs, used, i =>
    if c ∈ used then
      let fn := resolveDup c (uuids i)
      !(used.contains fn) && dedupFresh uuids cs (fn :: used) (i + 1)
    else dedupFresh uuids cs (c :: used) i

/-! ## Concrete fixtures used by counterexamples and witnesses -/

/-- A small concrete configuration (shape of `src/config.ts` defaults,
scaled down). -/
def cfg0 : Config where
  sourceDir := "/in"
  archiveDir := "/arch"
  failedDir := "/failed"
  destinationBucket := "bkt"
  s3PfxBase := "base"
  batchSize := 2
  maxFilesPerInvocation := 10
  timeoutBufferMs := 5
  minFileAgeMs := 0
  deleteOnSuccess := false

/-- An S3 client on which every PUT succeeds. -/
def sendOk : String → String → Option (Option String) := fun _ _ => some (some "etag")

/-- An S3 client on which every PUT fails. -/
def sendFail : String → String → Option (Option String) := fun _ _ => none

/-- A deterministic stand-in for the `uuid()` supply. -/
def uuids0 : Nat → String := fun k => (toString k) ++ "aaaaaaaaaaaa"

/-- A parser with neither a naming nor a filter pattern configured. -/
def parser0 : ContentParser := ⟨none, none⟩

/-- Two concrete one-entry archives for the C4 witness. -/
def zips2 : List ZipArchive :=
  [⟨"a.zip", [⟨"x.xml", 1, "c", false⟩]⟩, ⟨"b.zip", [⟨"y.xml", 1, "d", false⟩]⟩]

/-- Three concrete files for the C8 witness. -/
def files3 : List FileToUpload :=
  [⟨"a.xml", "1"⟩, ⟨"b.xml", "2"⟩, ⟨"c.xml", "3"⟩]

/-- Three 4-byte entries: 12 bytes in total, above a 10-byte total-size
limit while each entry stays within every per-entry bound. -/
def totalSizeEntries : List RawEntry :=
  [⟨"a.xml", 4, "aaaa", false⟩, ⟨"b.xml", 4, "bbbb", false⟩,
   ⟨"c.xml", 4, "cccc", false⟩]

end Relay

namespace Relay

/-! ## Extractor lemmas -/

theorem nonDirCount_nil : nonDirCount [] = 0 := rfl

theorem nonDirCount_cons (e : RawEntry) (l : List RawEntry) :
    nonDirCount (e :: l) =
      if isDirEntry e then nonDirCount l else nonDirCount l + 1 := by
  by_cases h : isDirEntry e <;>
    simp [nonDirCount, List.filter_cons, h]

theorem extractGo_nil (maxE maxS cnt : Nat) :
    extractGo maxE maxS [] cnt = ([], none) := rfl

theorem extractGo_dir (maxE maxS cnt : Nat) (e : RawEntry) (rest : List RawEntry)
    (hd : isDirEntry e = true) :
    extractGo maxE maxS (e :: rest) cnt = extractGo maxE maxS rest cnt := by
  simp [extractGo, hd]

theorem extractGo_count_abort (maxE maxS cnt : Nat) (e : RawEntry)
    (rest : List RawEntry) (hd : isDirEntry e = false) (h1 : cnt + 1 > maxE) :
    extractGo maxE maxS (e :: rest) cnt = ([], some (.tooManyEntries maxE)) := by
  simp [extractGo, hd, h1]

theorem extractGo_declared_abort (maxE maxS cnt : Nat) (e : RawEntry)
    (rest : List RawEntry) (hd : isDirEntry e = false) (h1 : ¬cnt + 1 > maxE)
    (h2 : e.uncompressedSize > maxS) :
    extractGo maxE maxS (e :: rest) cnt =
      ([], some (.entryTooLarge e.fileName maxS)) := by
  simp [extractGo, hd, h1, h2]

theorem extractGo_read_abort (maxE maxS cnt : Nat) (e : RawEntry)
    (rest : List RawEntry) (hd : isDirEntry e = false) (h1 : ¬cnt + 1 > maxE)
    (h2 : ¬e.uncompressedSize > maxS) (h3 : e.readError = true) :
    extractGo maxE maxS (e :: rest) cnt = ([], some .extraction) := by
  simp [extractGo, hd, h1, h2, h3]

theorem extractGo_actual_abort (maxE maxS cnt : Nat) (e : RawEntry)
    (rest : List RawEntry) (hd : isDirEntry e = false) (h1 : ¬cnt + 1 > maxE)
    (h2 : ¬e.uncompressedSize > maxS) (h3 : e.readError = false)
    (h4 : e.content.length > maxS) :
    extractGo maxE maxS (e :: rest) cnt =
      ([], some (.entryTooLarge e.fileName maxS)) := by
  simp [extractGo, hd, h1, h2, h3, h4]

theorem extractGo_yield (maxE maxS cnt : Nat) (e : RawEntry)
    (rest : List RawEntry) (hd : isDirEntry e = false) (h1 : ¬cnt + 1 > maxE)
    (h2 : ¬e.uncompressedSize > maxS) (h3 : e.readError = false)
    (h4 : ¬e.content.length > maxS) :
    extractGo maxE maxS (e :: rest) cnt =
      (⟨e.fileName, e.content⟩ :: (extractGo maxE maxS rest (cnt + 1)).1,
        (extractGo maxE maxS rest (cnt + 1)).2) := by
  simp [extractGo, hd, h1, h2, h3, h4]

/-- The streaming extractor yields at most `maxEntries - entryCount`
further files. -/
theorem extractGo_length_le (maxE maxS : Nat) :
    ∀ (l : List RawEntry) (cnt : Nat),
      (extractGo maxE maxS l cnt).1.length ≤ maxE - cnt := by
  intro l
  induction l with
  | nil => intro cnt; simp [extractGo_nil]
  | cons e rest ih =>
    intro cnt
    by_cases hd : isDirEntry e
    · rw [extractGo_dir maxE maxS cnt e rest hd]; exact ih cnt
    · rw [Bool.not_eq_true] at hd
      by_cases h1 : cnt + 1 > maxE
      · rw [extractGo_count_abort maxE maxS cnt e rest hd h1]; simp
      · by_cases h2 : e.uncompressedSize > maxS
        · rw [extractGo_declared_abort maxE maxS cnt e rest hd h1 h2]; simp
        · by_cases h3 : e.readError
          · rw [extractGo_read_abort maxE maxS cnt e rest hd h1 h2 h3]; simp
          · rw [Bool.not_eq_true] at h3
            by_cases h4 : e.content.length > maxS
            · rw [extractGo_actual_abort maxE maxS cnt e rest hd h1 h2 h3 h4]
              simp
            · rw [extractGo_yield maxE maxS cnt e rest hd h1 h2 h3 h4]
              have := ih (cnt + 1)
              simp only [List.length_cons]
              omega

/-- Every yielded file's actual content length is within
`maxEntrySize`. -/
theorem extractGo_content_le (maxE maxS : Nat) :
    ∀ (l : List RawEntry) (cnt : Nat) (f : ExtractedFile),
      f ∈ (extractGo maxE maxS l cnt).1 → f.content.length ≤ maxS := by
  intro l
  induction l with
  | nil => intro cnt f hf; simp [extractGo_nil] at hf
  | cons e rest ih =>
    intro cnt f hf
    by_cases hd : isDirEntry e
    · exact ih cnt f (by rwa [extractGo_dir maxE maxS cnt e rest hd] at hf)
    · rw [Bool.not_eq_true] at hd
      by_cases h1 : cnt + 1 > maxE
      · rw [extractGo_count_abort maxE maxS cnt e rest hd h1] at hf; simp at hf
      · by_cases h2 : e.uncompressedSize > maxS
        · rw [extractGo_declared_abort maxE maxS cnt e rest hd h1 h2] at hf
          simp at hf
        · by_cases h3 : e.readError
          · rw [extractGo_read_abort maxE maxS cnt e rest hd h1 h2 h3] at hf
            simp at hf
          · rw [Bool.not_eq_true] at h3
            by_cases h4 : e.content.length > maxS
            · rw [extractGo_actual_abort maxE maxS cnt e rest hd h1 h2 h3 h4] at hf
              simp at hf
            · rw [extractGo_yield maxE maxS cnt e rest hd h1 h2 h3 h4] at hf
              rcases List.mem_cons.mp hf with h | h
              · subst h; exact Nat.le_of_not_lt h4
              · exact ih (cnt + 1) f h

/-- When a prefix extracts without error, extraction of an extended list
continues after the prefix's yields with the entry counter advanced by
the prefix's non-directory count. -/
theorem extractGo_append (maxE maxS : Nat) :
    ∀ (pre rest : List RawEntry) (cnt : Nat),
      (extractGo maxE maxS pre cnt).2 = none →
      extractGo maxE maxS (pre ++ rest) cnt =
        ((extractGo maxE maxS pre cnt).1 ++
          (extractGo maxE maxS rest (cnt + nonDirCount pre)).1,
         (extractGo maxE maxS rest (cnt + nonDirCount pre)).2) := by
  intro pre
  induction pre with
  | nil =>
    intro rest cnt _
    simp [extractGo_nil, nonDirCount_nil]
  | cons e pre' ih =>
    intro rest cnt hnone
    by_cases hd : isDirEntry e
    · rw [extractGo_dir maxE maxS cnt e pre' hd] at hnone
      have := ih rest cnt hnone
      rw [List.cons_append, extractGo_dir maxE maxS cnt e (pre' ++ rest) hd,
        this, extractGo_dir maxE maxS cnt e pre' hd, nonDirCount_cons]
      simp [hd]
    · rw [Bool.not_eq_true] at hd
      by_cases h1 : cnt + 1 > maxE
      · rw [extractGo_count_abort maxE maxS cnt e pre' hd h1] at hnone
        simp at hnone
      · by_cases h2 : e.uncompressedSize > maxS
        · rw [extractGo_declared_abort maxE maxS cnt e pre' hd h1 h2] at hnone
          simp at hnone
        · by_cases h3 : e.readError
          · rw [extractGo_read_abort maxE maxS cnt e pre' hd h1 h2 h3] at hnone
            simp at hnone
          · rw [Bool.not_eq_true] at h3
            by_cases h4 : e.content.length > maxS
            · rw [extractGo_actual_abort maxE maxS cnt e pre' hd h1 h2 h3 h4] at hnone
              simp at hnone
            · rw [extractGo_yield maxE maxS cnt e pre' hd h1 h2 h3 h4] at hnone
              have := ih rest (cnt + 1) hnone
              rw [List.cons_append,
                extractGo_yield maxE maxS cnt e (pre' ++ rest) hd h1 h2 h3 h4,
                this, extractGo_yield maxE maxS cnt e pre' hd h1 h2 h3 h4,
                nonDirCount_cons]
              simp only [hd, if_false, List.cons_append, Bool.false_eq_true]
              have harith : cnt + (nonDirCount pre' + 1) = cnt + 1 + nonDirCount pre' := by
                omega
              rw [harith]

end Relay

namespace Relay

/-! ## Claims C6, C10, C2 — extraction limits -/

/-- C6: for every archive, streaming extraction yields at most
`maxEntries` non-directory entries and never yields an entry whose
content exceeds `maxEntrySize`; the first entry to cross the entry or
size limit aborts extraction with the corresponding `tooManyEntries` or
`entryTooLarge` error, and the items yielded before the abort (those of
the error-free prefix) are kept, not retracted. -/
theorem claim6_streaming_limits (options : ExtractOptions) :
    (∀ entries, (extractZipStreaming options entries).1.length ≤
        options.maxEntries.getD DEFAULT_MAX_ENTRIES)
    ∧ (∀ entries f, f ∈ (extractZipStreaming options entries).1 →
        f.content.length ≤ options.maxEntrySize.getD DEFAULT_MAX_ENTRY_SIZE)
    ∧ (∀ pre e rest, (extractZipStreaming options pre).2 = none →
        isDirEntry e = false →
        nonDirCount pre + 1 > options.maxEntries.getD DEFAULT_MAX_ENTRIES →
        extractZipStreaming options (pre ++ e :: rest) =
          ((extractZipStreaming options pre).1,
            some (.tooManyEntries (options.maxEntries.getD DEFAULT_MAX_ENTRIES))))
    ∧ (∀ pre e rest, (extractZipStreaming options pre).2 = none →
        isDirEntry e = false →
        ¬nonDirCount pre + 1 > options.maxEntries.getD DEFAULT_MAX_ENTRIES →
        e.uncompressedSize > options.maxEntrySize.getD DEFAULT_MAX_ENTRY_SIZE →
        extractZipStreaming options (pre ++ e :: rest) =
          ((extractZipStreaming options pre).1,
            some (.entryTooLarge e.fileName
              (options.maxEntrySize.getD DEFAULT_MAX_ENTRY_SIZE)))) := by
  refine ⟨?_, ?_, ?_, ?_⟩
  · intro entries
    have := extractGo_length_le (options.maxEntries.getD DEFAULT_MAX_ENTRIES)
      (options.maxEntrySize.getD DEFAULT_MAX_ENTRY_SIZE) entries 0
    simpa [extractZipStreaming] using this
  · intro entries f hf
    exact extractGo_content_le _ _ entries 0 f (by simpa [extractZipStreaming] using hf)
  · intro pre e rest hnone hd hcount
    have happ := extractGo_append (options.maxEntries.getD DEFAULT_MAX_ENTRIES)
      (options.maxEntrySize.getD DEFAULT_MAX_ENTRY_SIZE) pre (e :: rest) 0
      (by simpa [extractZipStreaming] using hnone)
    have hstep := extractGo_count_abort (options.maxEntries.getD DEFAULT_MAX_ENTRIES)
      (options.maxEntrySize.getD DEFAULT_MAX_ENTRY_SIZE)
      (0 + nonDirCount pre) e rest hd (by omega)
    simp only [extractZipStreaming] at happ ⊢
    rw [happ, hstep]
    simp
  · intro pre e rest hnone hd hcount hdecl
    have happ := extractGo_append (options.maxEntries.getD DEFAULT_MAX_ENTRIES)
      (options.maxEntrySize.getD DEFAULT_MAX_ENTRY_SIZE) pre (e :: rest) 0
      (by simpa [extractZipStreaming] using hnone)
    have hstep := extractGo_declared_abort (options.maxEntries.getD DEFAULT_MAX_ENTRIES)
      (options.maxEntrySize.getD DEFAULT_MAX_ENTRY_SIZE)
      (0 + nonDirCount pre) e rest hd (by omega) hdecl
    simp only [extractZipStreaming] at happ ⊢
    rw [happ, hstep]
    simp

/-- Witness for C6 at concrete archives: with `maxEntries = 2`,
`maxEntrySize = 5`, a three-entry archive yields at most 2 files; a
third non-directory entry aborts with the entry-limit error keeping the
first two yields; with `maxEntries = 9` an entry declaring 7 bytes
aborts with the entry-size error keeping the prior yield. -/
theorem claim6_streaming_limits_witness :
    ((extractZipStreaming ⟨some 2, some 5, none⟩ totalSizeEntries).1.length ≤ 2)
    ∧ (extractZipStreaming ⟨some 2, some 5, none⟩
        ([⟨"a.xml", 4, "aaaa", false⟩, ⟨"b.xml", 4, "bbbb", false⟩] ++
          ⟨"c.xml", 4, "cccc", false⟩ :: []) =
        ((extractZipStreaming ⟨some 2, some 5, none⟩
            [⟨"a.xml", 4, "aaaa", false⟩, ⟨"b.xml", 4, "bbbb", false⟩]).1,
          some (.tooManyEntries 2)))
    ∧ (extractZipStreaming ⟨some 9, some 5, none⟩
        ([⟨"a.xml", 4, "aaaa", false⟩] ++ ⟨"big.xml", 7, "ggggggg", false⟩ :: []) =
        ((extractZipStreaming ⟨some 9, some 5, none⟩
            [⟨"a.xml", 4, "aaaa", false⟩]).1,
          some (.entryTooLarge "big.xml" 5))) := by
  refine ⟨(claim6_streaming_limits ⟨some 2, some 5, none⟩).1 totalSizeEntries, ?_, ?_⟩
  · exact (claim6_streaming_limits ⟨some 2, some 5, none⟩).2.2.1
      [⟨"a.xml", 4, "aaaa", false⟩, ⟨"b.xml", 4, "bbbb", false⟩]
      ⟨"c.xml", 4, "cccc", false⟩ [] (by decide) (by decide) (by decide)
  · exact (claim6_streaming_limits ⟨some 9, some 5, none⟩).2.2.2
      [⟨"a.xml", 4, "aaaa", false⟩] ⟨"big.xml", 7, "ggggggg", false⟩ []
      (by decide) (by decide) (by decide) (by decide)

/-- C10: the per-entry size limit is enforced against the actual
decompressed length in addition to the declared header size — no
yielded item's content ever exceeds `maxEntrySize`, and an entry whose
header declares a size within the limit but whose actual content is
longer aborts extraction with the entry-size error instead of yielding,
keeping the previously yielded items. -/
theorem claim10_actual_size_enforced (options : ExtractOptions) :
    (∀ entries f, f ∈ (extractZipStreaming options entries).1 →
        f.content.length ≤ options.maxEntrySize.getD DEFAULT_MAX_ENTRY_SIZE)
    ∧ (∀ pre e rest, (extractZipStreaming options pre).2 = none →
        isDirEntry e = false →
        ¬nonDirCount pre + 1 > options.maxEntries.getD DEFAULT_MAX_ENTRIES →
        ¬e.uncompressedSize > options.maxEntrySize.getD DEFAULT_MAX_ENTRY_SIZE →
        e.readError = false →
        e.content.length > options.maxEntrySize.getD DEFAULT_MAX_ENTRY_SIZE →
        extractZipStreaming options (pre ++ e :: rest) =
          ((extractZipStreaming options pre).1,
            some (.entryTooLarge e.fileName
              (options.maxEntrySize.getD DEFAULT_MAX_ENTRY_SIZE)))) := by
  constructor
  · intro entries f hf
    exact extractGo_content_le _ _ entries 0 f (by simpa [extractZipStreaming] using hf)
  · intro pre e rest hnone hd hcount hdecl hre hact
    have happ := extractGo_append (options.maxEntries.getD DEFAULT_MAX_ENTRIES)
      (options.maxEntrySize.getD DEFAULT_MAX_ENTRY_SIZE) pre (e :: rest) 0
      (by simpa [extractZipStreaming] using hnone)
    have hstep := extractGo_actual_abort (options.maxEntries.getD DEFAULT_MAX_ENTRIES)
      (options.maxEntrySize.getD DEFAULT_MAX_ENTRY_SIZE)
      (0 + nonDirCount pre) e rest hd (by omega) hdecl hre hact
    simp only [extractZipStreaming] at happ ⊢
    rw [happ, hstep]
    simp

/-- Witness for C10: an entry declaring 3 bytes (within the 5-byte
limit) whose actual content has 7 bytes aborts with the entry-size
error and is not yielded; the prior yield is kept. -/
theorem claim10_actual_size_enforced_witness :
    extractZipStreaming ⟨some 9, some 5, none⟩
        ([⟨"a.xml", 4, "aaaa", false⟩] ++ ⟨"lie.xml", 3, "ggggggg", false⟩ :: []) =
      ((extractZipStreaming ⟨some 9, some 5, none⟩
          [⟨"a.xml", 4, "aaaa", false⟩]).1,
        some (.entryTooLarge "lie.xml" 5)) :=
  (claim10_actual_size_enforced ⟨some 9, some 5, none⟩).2
    [⟨"a.xml", 4, "aaaa", false⟩] ⟨"lie.xml", 3, "ggggggg", false⟩ []
    (by decide) (by decide) (by decide) (by decide) (by decide) (by decide)

/-- C2 (refuting the claim on the processing path): the streaming
extractor — the one `tryProcessZipFile` iterates — never reads
`options.maxTotalSize`, so its result is identical for any two values
of that option; on three 4-byte entries with a 10-byte total-size limit
it yields all three files (12 bytes) with no error, while the eager
`extractZip` (unused by the processor) does abort with `tooLarge`; the
archive processor uploads all 12 bytes. -/
theorem claim2_total_size_unenforced :
    (∀ (a b t t' : Option Nat) entries,
      extractZipStreaming ⟨a, b, t⟩ entries = extractZipStreaming ⟨a, b, t'⟩ entries)
    ∧ extractZipStreaming ⟨none, none, some 10⟩ totalSizeEntries =
        ([⟨"a.xml", "aaaa"⟩, ⟨"b.xml", "bbbb"⟩, ⟨"c.xml", "cccc"⟩], none)
    ∧ (((extractZipStreaming ⟨none, none, some 10⟩ totalSizeEntries).1.map
          (fun f => f.content.length)).sum = 12 ∧ 10 < 12)
    ∧ extractZip ⟨none, none, some 10⟩ totalSizeEntries = .error (.tooLarge 10)
    ∧ tryProcessZipFile sendOk uuids0 cfg0 parser0 "/in/t.zip" totalSizeEntries =
        (.ok ⟨"/in/t.zip", 3, 3, 0⟩, true) := by
  refine ⟨fun a b t t' entries => rfl, by decide, by decide, by decide, by decide⟩

end Relay

namespace Relay

/-! ## Uploader lemmas and claim C5 -/

/-- With positive concurrency and enough fuel, the chunked upload loop
produces exactly one result per file, in order. -/
theorem uploadChunksGo_eq_map (send : String → String → Option (Option String))
    (bucket : String) :
    ∀ (fuel : Nat) (files : List FileToUpload) (c : Nat), 0 < c →
      files.length ≤ fuel →
      uploadChunksGo send bucket fuel files c =
        files.map (fun f => tryUploadFile send bucket f.key f.content) := by
  intro fuel
  induction fuel with
  | zero =>
    intro files c hc hlen
    have : files = [] := List.eq_nil_of_length_eq_zero (Nat.le_zero.mp hlen)
    subst this
    rfl
  | succ fuel ih =>
    intro files c hc hlen
    match files with
    | [] => rfl
    | f :: fs =>
      have hc' : ¬c = 0 := Nat.pos_iff_ne_zero.mp hc
      simp only [uploadChunksGo, if_neg hc']
      have hdrop : ((f :: fs).drop c).length ≤ fuel := by
        simp only [List.length_drop, List.length_cons]
        simp only [List.length_cons] at hlen
        omega
      rw [ih ((f :: fs).drop c) c hc hdrop, ← List.map_append,
        List.take_append_drop]

/-- `uploadFilesInChunks` returns one outcome per input file. -/
theorem uploadFilesInChunks_eq_map (send : String → String → Option (Option String))
    (bucket : String) (files : List FileToUpload) (c : Nat) (hc : 0 < c) :
    uploadFilesInChunks send bucket files c =
      files.map (fun f => tryUploadFile send bucket f.key f.content) :=
  uploadChunksGo_eq_map send bucket files.length files c hc (Nat.le_refl _)

/-- `partitionResults` accounts for every result exactly once. -/
theorem partitionResults_length (results : List (Except S3Err UploadSuccess)) :
    (partitionResults results).1.length + (partitionResults results).2.length =
      results.length := by
  induction results with
  | nil => rfl
  | cons r rest ih =>
    cases r with
    | ok v => simp only [partitionResults, List.length_cons]; omega
    | error e => simp only [partitionResults, List.length_cons]; omega

/-- `tryUploadBatch` rewritten over the per-file outcome list. -/
theorem tryUploadBatch_eq (send : String → String → Option (Option String))
    (bucket : String) (batch : Batch) :
    tryUploadBatch send bucket batch =
      (if (partitionResults ((batch.files.map (fun file =>
            FileToUpload.mk (joinS3Path [batch.pfx, file.key]) file.content)).map
              (fun f => tryUploadFile send bucket f.key f.content))).2.length > 0 then
        ⟨.partSuccess, batch.pfx,
          (partitionResults ((batch.files.map (fun file =>
            FileToUpload.mk (joinS3Path [batch.pfx, file.key]) file.content)).map
              (fun f => tryUploadFile send bucket f.key f.content))).1,
          (partitionResults ((batch.files.map (fun file =>
            FileToUpload.mk (joinS3Path [batch.pfx, file.key]) file.content)).map
              (fun f => tryUploadFile send bucket f.key f.content))).2⟩
      else
        ⟨.fullSuccess, batch.pfx,
          (partitionResults ((batch.files.map (fun file =>
            FileToUpload.mk (joinS3Path [batch.pfx, file.key]) file.content)).map
              (fun f => tryUploadFile send bucket f.key f.content))).1, []⟩) := by
  simp only [tryUploadBatch,
    uploadFilesInChunks_eq_map send bucket _ UPLOAD_CONCURRENCY (by decide)]

/-- The status/accounting facts, generically over the partitioned
outcome pair. -/
theorem batchResultFacts (pfx : String) (N : Nat)
    (p : List UploadSuccess × List S3Err)
    (hpart : p.1.length + p.2.length = N) :
    (((if p.2.length > 0 then
        (⟨.partSuccess, pfx, p.1, p.2⟩ : BatchUploadResult)
      else ⟨.fullSuccess, pfx, p.1, []⟩)).successful.length +
      ((if p.2.length > 0 then
        (⟨.partSuccess, pfx, p.1, p.2⟩ : BatchUploadResult)
      else ⟨.fullSuccess, pfx, p.1, []⟩)).failed.length = N)
    ∧ (((if p.2.length > 0 then
        (⟨.partSuccess, pfx, p.1, p.2⟩ : BatchUploadResult)
      else ⟨.fullSuccess, pfx, p.1, []⟩)).status = .fullSuccess ↔
        ((if p.2.length > 0 then
          (⟨.partSuccess, pfx, p.1, p.2⟩ : BatchUploadResult)
        else ⟨.fullSuccess, pfx, p.1, []⟩)).failed = [])
    ∧ (((if p.2.length > 0 then
        (⟨.partSuccess, pfx, p.1, p.2⟩ : BatchUploadResult)
      else ⟨.fullSuccess, pfx, p.1, []⟩)).status = .partSuccess ↔
        ((if p.2.length > 0 then
          (⟨.partSuccess, pfx, p.1, p.2⟩ : BatchUploadResult)
        else ⟨.fullSuccess, pfx, p.1, []⟩)).failed ≠ [])
    ∧ (((if p.2.length > 0 then
        (⟨.partSuccess, pfx, p.1, p.2⟩ : BatchUploadResult)
      else ⟨.fullSuccess, pfx, p.1, []⟩)).status = .fullSuccess ↔
        ((if p.2.length > 0 then
          (⟨.partSuccess, pfx, p.1, p.2⟩ : BatchUploadResult)
        else ⟨.fullSuccess, pfx, p.1, []⟩)).successful.length = N) := by
  by_cases hfail : p.2.length > 0
  · have hne : p.2 ≠ [] := by
      intro hcon
      rw [hcon] at hfail
      simp at hfail
    simp only [if_pos hfail]
    refine ⟨hpart, by simp [hne], by simp [hne], ?_⟩
    constructor
    · intro hcon; cases hcon
    · intro hcon
      exfalso
      omega
  · have hz : p.2.length = 0 := by omega
    simp only [if_neg hfail]
    refine ⟨by simpa [hz] using hpart, by simp, by simp, ?_⟩
    simp only [true_iff]
    omega

/-- C5: for every batch, `tryUploadBatch` reports `full_success` exactly
when every item was delivered (no failed outcome), `partial_success`
exactly when at least one item failed, it never raises for an
individual item failure (every outcome is data in the result), and
every file of the batch is accounted for exactly once: successes plus
failures equal the batch size. -/
theorem claim5_upload_accounting (send : String → String → Option (Option String))
    (bucket : String) (batch : Batch) :
    ((tryUploadBatch send bucket batch).successful.length +
        (tryUploadBatch send bucket batch).failed.length = batch.files.length)
    ∧ ((tryUploadBatch send bucket batch).status = .fullSuccess ↔
        (tryUploadBatch send bucket batch).failed = [])
    ∧ ((tryUploadBatch send bucket batch).status = .partSuccess ↔
        (tryUploadBatch send bucket batch).failed ≠ [])
    ∧ ((tryUploadBatch send bucket batch).status = .fullSuccess ↔
        (tryUploadBatch send bucket batch).successful.length = batch.files.length) := by
  have hpart := partitionResults_length ((batch.files.map (fun file =>
    FileToUpload.mk (joinS3Path [batch.pfx, file.key]) file.content)).map
      (fun f => tryUploadFile send bucket f.key f.content))
  rw [List.length_map, List.length_map] at hpart
  rw [tryUploadBatch_eq]
  exact batchResultFacts batch.pfx batch.files.length _ hpart

end Relay

namespace Relay

/-! ## Claim C9 — content classifier -/

/-- C9: the classifier decides from the content alone: with no filter
pattern configured `shouldFilter` is `false` for every content; with a
naming pattern whose first capture group matches non-empty, the derived
name is that capture suffixed `.xml`; in every other case (no naming
pattern, no match, or an empty first capture) the original entry name is
returned verbatim. -/
theorem claim9_classifier (p : ContentParser) (content fallbackName : String) :
    (p.filterRegex = none → p.shouldFilter content = false)
    ∧ (∀ re g, p.filenameRegex = some re → re content = some g → g ≠ "" →
        p.extractFilename content fallbackName = g ++ ".xml")
    ∧ (p.filenameRegex = none →
        p.extractFilename content fallbackName = fallbackName)
    ∧ (∀ re, p.filenameRegex = some re → re content = none →
        p.extractFilename content fallbackName = fallbackName)
    ∧ (∀ re, p.filenameRegex = some re → re content = some "" →
        p.extractFilename content fallbackName = fallbackName) := by
  refine ⟨?_, ?_, ?_, ?_, ?_⟩
  · intro h
    simp [ContentParser.shouldFilter, h]
  · intro re g hre hg hne
    simp [ContentParser.extractFilename, hre, hg, hne]
  · intro h
    simp [ContentParser.extractFilename, h]
  · intro re hre hg
    simp [ContentParser.extractFilename, hre, hg]
  · intro re hre hg
    simp [ContentParser.extractFilename, hre, hg]

/-- Witness for C9 at a concrete parser: a naming matcher that captures
`"TXN-1"` on one content and nothing on another, and no filter
pattern. -/
theorem claim9_classifier_witness :
    ContentParser.shouldFilter ⟨some (fun c => if c = "m" then some "TXN-1" else none), none⟩ "m" = false
    ∧ ContentParser.extractFilename
        ⟨some (fun c => if c = "m" then some "TXN-1" else none), none⟩ "m" "f.xml" = "TXN-1.xml"
    ∧ ContentParser.extractFilename
        ⟨some (fun c => if c = "m" then some "TXN-1" else none), none⟩ "n" "f.xml" = "f.xml"
    ∧ ContentParser.extractFilename ⟨none, none⟩ "m" "f.xml" = "f.xml" := by
  refine ⟨(claim9_classifier _ "m" "f.xml").1 rfl, ?_, ?_, ?_⟩
  · exact (claim9_classifier _ "m" "f.xml").2.1
      (fun c => if c = "m" then some "TXN-1" else none) "TXN-1" rfl (by decide)
      (by decide)
  · exact (claim9_classifier _ "n" "f.xml").2.2.2.1
      (fun c => if c = "m" then some "TXN-1" else none) rfl (by decide)
  · exact (claim9_classifier ⟨none, none⟩ "m" "f.xml").2.2.1 rfl

/-! ## Claim C3 — totalFilesFailed is hardcoded to zero -/

/-- C3 (refuting the aggregation claim): `processZips` returns
`totalFilesFailed = 0` on every input — the literal `0` at src/index.ts
line 413 — even when an archive records failed uploads; concretely, an
invocation whose single archive had its one upload fail yields
`zipsFailed = 1` with the archive's failure recording 1 failed upload
(`uploadFailures 1`), yet `totalFilesFailed = 0`. -/
theorem claim3_totalFilesFailed_hardcoded :
    (∀ send uuidsFor cfg parser times allZipFiles,
      (processZips send uuidsFor cfg parser times allZipFiles).totalFilesFailed = 0)
    ∧ processZips sendFail (fun _ => uuids0) cfg0 parser0 (fun _ => 1000)
        [⟨"a.zip", [⟨"x.xml", 1, "c", false⟩]⟩] =
      { zipsProcessed := 0, zipsFailed := 1, totalFilesUploaded := 0,
        totalFilesFailed := 0, totalFilesFiltered := 0, successes := [],
        failures := [⟨"/in/a.zip", .uploadFailures 1, 1, 0, 0⟩],
        stoppedEarly := false } := by
  exact ⟨fun _ _ _ _ _ _ => rfl, by decide⟩

end Relay

namespace Relay

/-! ## Claim C1 — terminal disposition of one archive -/

/-- C1 (amended): when extraction completes without error, the returned
`Result` of `tryProcessZipFile` is a `ZipSuccess` exactly when zero
uploads failed — any upload failure forces the failure record carrying
`uploadFailures filesFailed` — while the routing flag handed to
`tryRouteFile` is `true` only when additionally at least one item was
uploaded.  In particular an archive with zero uploads and zero failures
(empty, or everything filtered) returns a `ZipSuccess` with zero counts
even though the file itself is routed to the failed directory. -/
theorem claim1_disposition_amended
    (send : String → String → Option (Option String)) (uuids : Nat → String)
    (cfg : Config) (parser : ContentParser) (zipPath : String)
    (entries : List RawEntry)
    (hnoerr : (extractZipStreaming {} entries).2 = none) :
    ((procFinalSt send uuids cfg parser entries).filesFailed = 0 →
      tryProcessZipFile send uuids cfg parser zipPath entries =
        (.ok ⟨zipPath,
          (procFinalSt send uuids cfg parser entries).filesExtracted,
          (procFinalSt send uuids cfg parser entries).filesUploaded,
          (procFinalSt send uuids cfg parser entries).filteredCount⟩,
          decide (0 < (procFinalSt send uuids cfg parser entries).filesUploaded)))
    ∧ (0 < (procFinalSt send uuids cfg parser entries).filesFailed →
      tryProcessZipFile send uuids cfg parser zipPath entries =
        (.error ⟨zipPath,
          .uploadFailures (procFinalSt send uuids cfg parser entries).filesFailed,
          (procFinalSt send uuids cfg parser entries).filesExtracted,
          (procFinalSt send uuids cfg parser entries).filesUploaded,
          (procFinalSt send uuids cfg parser entries).filteredCount⟩, false)) := by
  constructor
  · intro hf
    simp only [tryProcessZipFile, hnoerr]
    simp [hf]
  · intro hf
    have hf' : ¬(procFinalSt send uuids cfg parser entries).filesFailed = 0 := by
      omega
    simp only [tryProcessZipFile, hnoerr]
    simp [hf, hf']

/-- Counterexample to C1 as stated: an archive with zero items uploaded
and zero upload failures (here: an empty archive) is NOT returned as a
Failure — `tryProcessZipFile` returns a `ZipSuccess` with zero counts —
although the routing flag is `false` (the zip file goes to the failed
directory). -/
theorem claim1_zero_upload_counterexample :
    tryProcessZipFile sendOk uuids0 cfg0 parser0 "/in/empty.zip" [] =
      (.ok ⟨"/in/empty.zip", 0, 0, 0⟩, false) := by
  decide

/-- Witness for the amended C1: the empty archive instantiates the
success branch (zero failed uploads, `Ok` result, routing flag
`false`), and a one-entry archive whose upload fails instantiates the
failure branch. -/
theorem claim1_disposition_amended_witness :
    ((extractZipStreaming {} ([] : List RawEntry)).2 = none
      ∧ tryProcessZipFile sendOk uuids0 cfg0 parser0 "/in/empty.zip" [] =
        (.ok ⟨"/in/empty.zip",
          (procFinalSt sendOk uuids0 cfg0 parser0 []).filesExtracted,
          (procFinalSt sendOk uuids0 cfg0 parser0 []).filesUploaded,
          (procFinalSt sendOk uuids0 cfg0 parser0 []).filteredCount⟩,
          decide (0 < (procFinalSt sendOk uuids0 cfg0 parser0 []).filesUploaded)))
    ∧ tryProcessZipFile sendFail uuids0 cfg0 parser0 "/in/a.zip"
        [⟨"x.xml", 1, "c", false⟩] =
      (.error ⟨"/in/a.zip",
        .uploadFailures (procFinalSt sendFail uuids0 cfg0 parser0
          [⟨"x.xml", 1, "c", false⟩]).filesFailed,
        (procFinalSt sendFail uuids0 cfg0 parser0
          [⟨"x.xml", 1, "c", false⟩]).filesExtracted,
        (procFinalSt sendFail uuids0 cfg0 parser0
          [⟨"x.xml", 1, "c", false⟩]).filesUploaded,
        (procFinalSt sendFail uuids0 cfg0 parser0
          [⟨"x.xml", 1, "c", false⟩]).filteredCount⟩, false) :=
  ⟨⟨by decide,
    (claim1_disposition_amended sendOk uuids0 cfg0 parser0 "/in/empty.zip" []
      (by decide)).1 (by decide)⟩,
    (claim1_disposition_amended sendFail uuids0 cfg0 parser0 "/in/a.zip"
      [⟨"x.xml", 1, "c", false⟩] (by decide)).2 (by decide)⟩

end Relay

namespace Relay

/-! ## Claim C4 — deadline checked only between archives -/

/-- If the clock reads at or above the buffer before each of the first
`k` archives and below it before archive `k`, the loop returns exactly
the results of the first `k` archives and stops early. -/
theorem processLoop_stop (send : String → String → Option (Option String))
    (uuidsFor : Nat → Nat → String) (cfg : Config) (parser : ContentParser)
    (times : Nat → Nat) :
    ∀ (l : List ZipArchive) (k0 k : Nat), k < l.length →
      (∀ j, j < k → cfg.timeoutBufferMs ≤ times (k0 + j)) →
      times (k0 + k) < cfg.timeoutBufferMs →
      processLoop send uuidsFor cfg parser times l k0 =
        ((runAll send uuidsFor cfg parser (l.take k) k0).1,
         (runAll send uuidsFor cfg parser (l.take k) k0).2, true) := by
  intro l
  induction l with
  | nil =>
    intro k0 k hk
    simp at hk
  | cons z rest ih =>
    intro k0 k hk hpass hstop
    cases k with
    | zero =>
      rw [Nat.add_zero] at hstop
      simp [processLoop, runAll, if_pos hstop]
    | succ k =>
      have h0 : cfg.timeoutBufferMs ≤ times k0 := by
        have := hpass 0 (Nat.succ_pos k)
        rwa [Nat.add_zero] at this
      have hnot : ¬times k0 < cfg.timeoutBufferMs := not_lt.mpr h0
      have hpass' : ∀ j, j < k → cfg.timeoutBufferMs ≤ times (k0 + 1 + j) := by
        intro j hj
        have := hpass (j + 1) (by omega)
        have e : k0 + (j + 1) = k0 + 1 + j := by omega
        rwa [e] at this
      have hstop' : times (k0 + 1 + k) < cfg.timeoutBufferMs := by
        have e : k0 + (k + 1) = k0 + 1 + k := by omega
        rwa [e] at hstop
      have ihh := ih (k0 + 1) k (by simpa using Nat.lt_of_succ_lt_succ hk)
        hpass' hstop'
      simp only [processLoop, if_neg hnot, List.take_succ_cons, runAll, ihh]
      cases hr : (tryProcessZipFile send (uuidsFor k0) cfg parser
          (cfg.sourceDir ++ "/" ++ z.name) z.entries).1 with
      | ok v => simp
      | error e => simp

/-- If the clock reads at or above the buffer before every archive, the
loop processes all of them and does not stop early. -/
theorem processLoop_all (send : String → String → Option (Option String))
    (uuidsFor : Nat → Nat → String) (cfg : Config) (parser : ContentParser)
    (times : Nat → Nat) :
    ∀ (l : List ZipArchive) (k0 : Nat),
      (∀ j, j < l.length → cfg.timeoutBufferMs ≤ times (k0 + j)) →
      processLoop send uuidsFor cfg parser times l k0 =
        ((runAll send uuidsFor cfg parser l k0).1,
         (runAll send uuidsFor cfg parser l k0).2, false) := by
  intro l
  induction l with
  | nil =>
    intro k0 _
    simp [processLoop, runAll]
  | cons z rest ih =>
    intro k0 hpass
    have h0 : cfg.timeoutBufferMs ≤ times k0 := by
      have := hpass 0 (by simp)
      rwa [Nat.add_zero] at this
    have hnot : ¬times k0 < cfg.timeoutBufferMs := not_lt.mpr h0
    have hpass' : ∀ j, j < rest.length → cfg.timeoutBufferMs ≤ times (k0 + 1 + j) := by
      intro j hj
      have := hpass (j + 1) (by simp; omega)
      have e : k0 + (j + 1) = k0 + 1 + j := by omega
      rwa [e] at this
    have ihh := ih (k0 + 1) hpass'
    simp only [processLoop, if_neg hnot, runAll, ihh]
    cases hr : (tryProcessZipFile send (uuidsFor k0) cfg parser
        (cfg.sourceDir ++ "/" ++ z.name) z.entries).1 with
    | ok v => simp
    | error e => simp

/-- C4: the orchestrator probes the remaining-time budget exactly once
before starting each archive, never mid-archive.  If the probe before
archive `k` (0-based) of the capped eligible list reads below the
buffer while all earlier probes read at or above it, the invocation
returns `stoppedEarly = true` with exactly the results of the first `k`
archives in listing order — archive `k` and all later ones are not
started, so the response is independent of their contents.  If every
probe reads at or above the buffer, every archive runs to completion
and `stoppedEarly = false`. -/
theorem claim4_deadline_gate (send : String → String → Option (Option String))
    (uuidsFor : Nat → Nat → String) (cfg : Config) (parser : ContentParser)
    (times : Nat → Nat) (allZipFiles : List ZipArchive) :
    (∀ k, k < (allZipFiles.take cfg.maxFilesPerInvocation).length →
      (∀ j, j < k → cfg.timeoutBufferMs ≤ times j) →
      times k < cfg.timeoutBufferMs →
      processZips send uuidsFor cfg parser times allZipFiles =
        { zipsProcessed := (runAll send uuidsFor cfg parser
            ((allZipFiles.take cfg.maxFilesPerInvocation).take k) 0).1.length
          zipsFailed := (runAll send uuidsFor cfg parser
            ((allZipFiles.take cfg.maxFilesPerInvocation).take k) 0).2.length
          totalFilesUploaded := ((runAll send uuidsFor cfg parser
              ((allZipFiles.take cfg.maxFilesPerInvocation).take k) 0).1.map
                (·.filesUploaded)).sum +
            ((runAll send uuidsFor cfg parser
              ((allZipFiles.take cfg.maxFilesPerInvocation).take k) 0).2.map
                (·.filesUploaded)).sum
          totalFilesFailed := 0
          totalFilesFiltered := ((runAll send uuidsFor cfg parser
              ((allZipFiles.take cfg.maxFilesPerInvocation).take k) 0).1.map
                (·.filesFiltered)).sum +
            ((runAll send uuidsFor cfg parser
              ((allZipFiles.take cfg.maxFilesPerInvocation).take k) 0).2.map
                (·.filesFiltered)).sum
          successes := (runAll send uuidsFor cfg parser
            ((allZipFiles.take cfg.maxFilesPerInvocation).take k) 0).1
          failures := (runAll send uuidsFor cfg parser
            ((allZipFiles.take cfg.maxFilesPerInvocation).take k) 0).2
          stoppedEarly := true })
    ∧ ((∀ j, j < (allZipFiles.take cfg.maxFilesPerInvocation).length →
        cfg.timeoutBufferMs ≤ times j) →
      processZips send uuidsFor cfg parser times allZipFiles =
        { zipsProcessed := (runAll send uuidsFor cfg parser
            (allZipFiles.take cfg.maxFilesPerInvocation) 0).1.length
          zipsFailed := (runAll send uuidsFor cfg parser
            (allZipFiles.take cfg.maxFilesPerInvocation) 0).2.length
          totalFilesUploaded := ((runAll send uuidsFor cfg parser
              (allZipFiles.take cfg.maxFilesPerInvocation) 0).1.map
                (·.filesUploaded)).sum +
            ((runAll send uuidsFor cfg parser
              (allZipFiles.take cfg.maxFilesPerInvocation) 0).2.map
                (·.filesUploaded)).sum
          totalFilesFailed := 0
          totalFilesFiltered := ((runAll send uuidsFor cfg parser
              (allZipFiles.take cfg.maxFilesPerInvocation) 0).1.map
                (·.filesFiltered)).sum +
            ((runAll send uuidsFor cfg parser
              (allZipFiles.take cfg.maxFilesPerInvocation) 0).2.map
                (·.filesFiltered)).sum
          successes := (runAll send uuidsFor cfg parser
            (allZipFiles.take cfg.maxFilesPerInvocation) 0).1
          failures := (runAll send uuidsFor cfg parser
            (allZipFiles.take cfg.maxFilesPerInvocation) 0).2
          stoppedEarly := false }) := by
  constructor
  · intro k hk hpass hstop
    have hloop := processLoop_stop send uuidsFor cfg parser times
      (allZipFiles.take cfg.maxFilesPerInvocation) 0 k hk
      (by intro j hj; simpa using hpass j hj) (by simpa using hstop)
    simp only [processZips, hloop]
  · intro hpass
    have hloop := processLoop_all send uuidsFor cfg parser times
      (allZipFiles.take cfg.maxFilesPerInvocation) 0
      (by intro j hj; simpa using hpass j hj)
    simp only [processZips, hloop]

/-- Witness for C4 with two concrete archives: a clock reading 1000 ms
then 0 ms stops before the second archive with exactly the first
archive's result; an always-ample clock processes both. -/
theorem claim4_deadline_gate_witness :
    (1 < (zips2.take cfg0.maxFilesPerInvocation).length
      ∧ processZips sendOk (fun _ => uuids0) cfg0 parser0
          (fun k => if k = 0 then 1000 else 0) zips2 =
        { zipsProcessed := (runAll sendOk (fun _ => uuids0) cfg0 parser0
            ((zips2.take cfg0.maxFilesPerInvocation).take 1) 0).1.length
          zipsFailed := (runAll sendOk (fun _ => uuids0) cfg0 parser0
            ((zips2.take cfg0.maxFilesPerInvocation).take 1) 0).2.length
          totalFilesUploaded := ((runAll sendOk (fun _ => uuids0) cfg0 parser0
              ((zips2.take cfg0.maxFilesPerInvocation).take 1) 0).1.map
                (·.filesUploaded)).sum +
            ((runAll sendOk (fun _ => uuids0) cfg0 parser0
              ((zips2.take cfg0.maxFilesPerInvocation).take 1) 0).2.map
                (·.filesUploaded)).sum
          totalFilesFailed := 0
          totalFilesFiltered := ((runAll sendOk (fun _ => uuids0) cfg0 parser0
              ((zips2.take cfg0.maxFilesPerInvocation).take 1) 0).1.map
                (·.filesFiltered)).sum +
            ((runAll sendOk (fun _ => uuids0) cfg0 parser0
              ((zips2.take cfg0.maxFilesPerInvocation).take 1) 0).2.map
                (·.filesFiltered)).sum
          successes := (runAll sendOk (fun _ => uuids0) cfg0 parser0
            ((zips2.take cfg0.maxFilesPerInvocation).take 1) 0).1
          failures := (runAll sendOk (fun _ => uuids0) cfg0 parser0
            ((zips2.take cfg0.maxFilesPerInvocation).take 1) 0).2
          stoppedEarly := true })
    ∧ (processZips sendOk (fun _ => uuids0) cfg0 parser0 (fun _ => 1000)
        zips2).stoppedEarly = false :=
  ⟨⟨by decide,
    (claim4_deadline_gate sendOk (fun _ => uuids0) cfg0 parser0
      (fun k => if k = 0 then 1000 else 0) zips2).1 1 (by decide)
      (fun j hj => by
        have hj0 : j = 0 := by omega
        subst hj0
        decide)
      (by decide)⟩,
    by
      have h := (claim4_deadline_gate sendOk (fun _ => uuids0) cfg0 parser0
        (fun _ => 1000) zips2).2 (fun j hj => by decide)
      rw [h]⟩

end Relay

namespace Relay

/-! ## Claim C7 — name deduplication -/

/-- `takeWhile` over a prefix wholly satisfying `p` followed by a
failing element returns exactly that prefix. -/
theorem takeWhile_all_stop (p : Char → Bool) :
    ∀ (l1 : List Char) (x : Char) (l2 : List Char),
      (∀ y ∈ l1, p y = true) → p x = false →
      (l1 ++ x :: l2).takeWhile p = l1 := by
  intro l1
  induction l1 with
  | nil =>
    intro x l2 _ hx
    simp [List.takeWhile_cons, hx]
  | cons a l ih =>
    intro x l2 hall hx
    have ha : p a = true := hall a (by simp)
    simp only [List.cons_append, List.takeWhile_cons, ha, if_true]
    rw [ih x l2 (fun y hy => hall y (by simp [hy])) hx]

/-- `dropWhile` over a prefix wholly satisfying `p` followed by a
failing element drops exactly that prefix. -/
theorem dropWhile_all_stop (p : Char → Bool) :
    ∀ (l1 : List Char) (x : Char) (l2 : List Char),
      (∀ y ∈ l1, p y = true) → p x = false →
      (l1 ++ x :: l2).dropWhile p = x :: l2 := by
  intro l1
  induction l1 with
  | nil =>
    intro x l2 _ hx
    simp [List.dropWhile_cons, hx]
  | cons a l ih =>
    intro x l2 hall hx
    have ha : p a = true := hall a (by simp)
    simp only [List.cons_append, List.dropWhile_cons, ha, if_true]
    exact ih x l2 (fun y hy => hall y (by simp [hy])) hx

/-- A name without a `.` gets the 8-character disambiguator appended at
the end. -/
theorem resolveDup_no_ext (c u : String) (hnd : c.toList.contains '.' = false) :
    resolveDup c u = c ++ "-" ++ String.mk (u.data.take 8) := by
  simp only [resolveDup, hnd, Bool.false_eq_true, if_false]
  apply String.ext
  simp [String.data_append]

/-- A name with an extension gets the disambiguator inserted
immediately before the last `.`. -/
theorem resolveDup_with_ext (b e u : String) (he : '.' ∉ e.data) :
    resolveDup (b ++ "." ++ e) u =
      b ++ "-" ++ String.mk (u.data.take 8) ++ "." ++ e := by
  have hdata : (b ++ "." ++ e).data = b.data ++ '.' :: e.data := by
    simp [String.data_append]
  have hcont : (b ++ "." ++ e).toList.contains '.' = true := by
    show (b ++ "." ++ e).data.contains '.' = true
    rw [hdata]
    simp
  have hrev : (b ++ "." ++ e).toList.reverse =
      e.data.reverse ++ '.' :: b.data.reverse := by
    show (b ++ "." ++ e).data.reverse = _
    rw [hdata]
    simp
  have hall : ∀ y ∈ e.data.reverse, (decide (y ≠ '.')) = true := by
    intro y hy
    have : y ∈ e.data := List.mem_reverse.mp hy
    have hne : y ≠ '.' := fun hcon => he (hcon ▸ this)
    simp [hne]
  have hstop : (decide (('.' : Char) ≠ '.')) = false := by simp
  have htake : ((b ++ "." ++ e).toList.reverse.takeWhile (· ≠ '.')) =
      e.data.reverse := by
    rw [hrev]
    exact takeWhile_all_stop _ e.data.reverse '.' b.data.reverse hall hstop
  have hdrop : ((b ++ "." ++ e).toList.reverse.dropWhile (· ≠ '.')) =
      '.' :: b.data.reverse := by
    rw [hrev]
    exact dropWhile_all_stop _ e.data.reverse '.' b.data.reverse hall hstop
  simp only [resolveDup, hcont, if_true, htake, hdrop]
  apply String.ext
  simp [String.data_append]

/-- The first occurrence of a candidate name passes through
unchanged. -/
theorem dedupTrace_first (uuids : Nat → String) (cs used : List String)
    (i : Nat) (c : String) (hmem : c ∉ used) :
    dedupTrace uuids (c :: cs) used i =
      c :: dedupTrace uuids cs (c :: used) i := by
  simp [dedupTrace, hmem]

/-- A repeated candidate name is rewritten with a fresh disambiguator
(and the rewritten name is recorded used). -/
theorem dedupTrace_repeat (uuids : Nat → String) (cs used : List String)
    (i : Nat) (c : String) (hmem : c ∈ used) :
    dedupTrace uuids (c :: cs) used i =
      resolveDup c (uuids i) ::
        dedupTrace uuids cs (resolveDup c (uuids i) :: used) (i + 1) := by
  simp [dedupTrace, hmem]

/-- Under the freshness assumption, every emitted name avoids the
initial used set and the emitted names are pairwise distinct. -/
theorem dedupTrace_fresh_spec (uuids : Nat → String) :
    ∀ (cs used : List String) (i : Nat),
      dedupFresh uuids cs used i = true →
      (∀ x ∈ dedupTrace uuids cs used i, x ∉ used) ∧
        (dedupTrace uuids cs used i).Nodup := by
  intro cs
  induction cs with
  | nil =>
    intro used i _
    simp [dedupTrace]
  | cons c cs ih =>
    intro used i hfresh
    by_cases hmem : c ∈ used
    · simp only [dedupFresh, if_pos hmem, Bool.and_eq_true] at hfresh
      have hfn : resolveDup c (uuids i) ∉ used := by
        have h1 := hfresh.1
        intro hcon
        simp only [Bool.not_eq_true'] at h1
        have h2 : used.contains (resolveDup c (uuids i)) = true := by
          exact List.elem_eq_true_of_mem hcon
        rw [h1] at h2
        exact Bool.noConfusion h2
      have hind := ih (resolveDup c (uuids i) :: used) (i + 1) hfresh.2
      rw [dedupTrace_repeat uuids cs used i c hmem]
      constructor
      · intro x hx
        rcases List.mem_cons.mp hx with rfl | hx'
        · exact hfn
        · intro hxu
          exact (hind.1 x hx') (List.mem_cons_of_mem _ hxu)
      · refine List.nodup_cons.mpr ⟨?_, hind.2⟩
        intro hcon
        exact (hind.1 _ hcon) (List.mem_cons_self _ _)
    · simp only [dedupFresh, if_neg hmem] at hfresh
      have hind := ih (c :: used) i hfresh
      rw [dedupTrace_first uuids cs used i c hmem]
      constructor
      · intro x hx
        rcases List.mem_cons.mp hx with rfl | hx'
        · exact hmem
        · intro hxu
          exact (hind.1 x hx') (List.mem_cons_of_mem _ hxu)
      · refine List.nodup_cons.mpr ⟨?_, hind.2⟩
        intro hcon
        exact (hind.1 _ hcon) (List.mem_cons_self _ _)

/-- C7: within one archive attempt, the first occurrence of each
candidate output name passes through deduplication unchanged; every
later occurrence of an already-used name is rewritten by inserting an
8-character disambiguator (the first 8 characters of a fresh `uuid()`,
hex by the uuid format) immediately before the last `.` — or appended
at the end when the name has none; and, assuming every generated
disambiguated name is new at its moment of creation, the emitted output
names are pairwise distinct. -/
theorem claim7_dedup_names (uuids : Nat → String) :
    (∀ (cs used : List String) (i : Nat) (c : String), c ∉ used →
      dedupTrace uuids (c :: cs) used i =
        c :: dedupTrace uuids cs (c :: used) i)
    ∧ (∀ (cs used : List String) (i : Nat) (c : String), c ∈ used →
      dedupTrace uuids (c :: cs) used i =
        resolveDup c (uuids i) ::
          dedupTrace uuids cs (resolveDup c (uuids i) :: used) (i + 1))
    ∧ (∀ (c u : String), c.toList.contains '.' = false →
      resolveDup c u = c ++ "-" ++ String.mk (u.data.take 8))
    ∧ (∀ (b e u : String), '.' ∉ e.data →
      resolveDup (b ++ "." ++ e) u =
        b ++ "-" ++ String.mk (u.data.take 8) ++ "." ++ e)
    ∧ (∀ (u : String), 8 ≤ u.length → (String.mk (u.data.take 8)).length = 8)
    ∧ (∀ (cs used : List String) (i : Nat), dedupFresh uuids cs used i = true →
      (dedupTrace uuids cs used i).Nodup) := by
  refine ⟨dedupTrace_first uuids, dedupTrace_repeat uuids, ?_, ?_, ?_, ?_⟩
  · intro c u hnd
    exact resolveDup_no_ext c u hnd
  · intro b e u he
    exact resolveDup_with_ext b e u he
  · intro u hu
    show (u.data.take 8).length = 8
    rw [List.length_take]
    have : u.length = u.data.length := rfl
    omega
  · intro cs used i hfresh
    exact (dedupTrace_fresh_spec uuids cs used i hfresh).2

/-- Witness for C7 on a concrete duplicate stream: candidates
`a.xml, a.xml, b, b` with the deterministic uuid supply emit
`a.xml, a-0aaaaaaa.xml, b, b-1aaaaaaa`, pairwise distinct; the shape
facts are instantiated at `a.xml` and `b`. -/
theorem claim7_dedup_names_witness :
    (dedupTrace uuids0 ["a.xml", "a.xml", "b"] ["a.xml"] 0 =
      resolveDup "a.xml" (uuids0 0) ::
        dedupTrace uuids0 ["a.xml", "b"]
          (resolveDup "a.xml" (uuids0 0) :: ["a.xml"]) 1)
    ∧ resolveDup ("a" ++ "." ++ "xml") (uuids0 0) =
        "a" ++ "-" ++ String.mk ((uuids0 0).data.take 8) ++ "." ++ "xml"
    ∧ resolveDup "b" (uuids0 1) = "b" ++ "-" ++ String.mk ((uuids0 1).data.take 8)
    ∧ (String.mk ((uuids0 0).data.take 8)).length = 8
    ∧ (dedupFresh uuids0 ["a.xml", "a.xml", "b", "b"] [] 0 = true
        ∧ (dedupTrace uuids0 ["a.xml", "a.xml", "b", "b"] [] 0).Nodup) :=
  ⟨(claim7_dedup_names uuids0).2.1 ["a.xml", "b"] ["a.xml"] 0 "a.xml" (by decide),
   (claim7_dedup_names uuids0).2.2.2.1 "a" "xml" (uuids0 0) (by decide),
   (claim7_dedup_names uuids0).2.2.1 "b" (uuids0 1) (by decide),
   (claim7_dedup_names uuids0).2.2.2.2.1 (uuids0 0) (by decide),
   ⟨by decide,
    (claim7_dedup_names uuids0).2.2.2.2.2 ["a.xml", "a.xml", "b", "b"] [] 0
      (by decide)⟩⟩

end Relay


namespace Relay

/-! ## Claim C8 — batch assembly -/

theorem createBatches_nil (uuids : Nat → String) (pfxBase : String)
    (B k : Nat) : createBatches uuids pfxBase B [] k = [] := by
  rw [createBatches]
  simp

theorem createBatches_cons (uuids : Nat → String) (pfxBase : String)
    (B : Nat) (files : List FileToUpload) (k : Nat) (hB : B ≠ 0)
    (hf : files ≠ []) :
    createBatches uuids pfxBase B files k =
      ⟨s3PfxBrand (joinS3Path [pfxBase, uuids k]), files.take B⟩ ::
        createBatches uuids pfxBase B (files.drop B) (k + 1) := by
  rw [createBatches]
  simp [hB, hf]

/-- One step of the ceiling division `⌈N/B⌉ = (N + B - 1) / B`. -/
theorem ceilDiv_step (N B : Nat) (hB : 0 < B) (hN : 0 < N) :
    (N + B - 1) / B = (N - B + B - 1) / B + 1 := by
  by_cases h : N ≤ B
  · have h1 : (N + B - 1) / B = 1 := by
      rw [Nat.div_eq_of_lt_le] <;> omega
    have h0 : N - B = 0 := by omega
    rw [h1, h0, Nat.zero_add, Nat.div_eq_of_lt (by omega)]
  · have e1 : N + B - 1 = (N - 1) + B := by omega
    have e2 : N - B + B - 1 = N - 1 := by omega
    rw [e1, Nat.add_div_right _ hB, e2]

/-- C8: for every kept-file list and capacity `B > 0`, `createBatches`
produces exactly `⌈N/B⌉` batches; every batch but the last holds
exactly `B` files; the last holds `N mod B` files (or `B` when `B`
divides `N`); and concatenating the batches in order restores the
original file list (order preserved). -/
theorem claim8_batching (uuids : Nat → String) (pfxBase : String) (B : Nat)
    (hB : 0 < B) :
    ∀ (files : List FileToUpload) (k : Nat),
      ((createBatches uuids pfxBase B files k).length = (files.length + B - 1) / B)
      ∧ (∀ b ∈ (createBatches uuids pfxBase B files k).dropLast,
          b.files.length = B)
      ∧ (∀ lb, (createBatches uuids pfxBase B files k).getLast? = some lb →
          lb.files.length =
            if files.length % B = 0 then B else files.length % B)
      ∧ ((createBatches uuids pfxBase B files k).map (·.files)).flatten = files := by
  suffices H : ∀ (n : Nat) (files : List FileToUpload) (k : Nat),
      files.length = n →
      ((createBatches uuids pfxBase B files k).length = (files.length + B - 1) / B)
      ∧ (∀ b ∈ (createBatches uuids pfxBase B files k).dropLast,
          b.files.length = B)
      ∧ (∀ lb, (createBatches uuids pfxBase B files k).getLast? = some lb →
          lb.files.length =
            if files.length % B = 0 then B else files.length % B)
      ∧ ((createBatches uuids pfxBase B files k).map (·.files)).flatten = files by
    intro files k
    exact H files.length files k rfl
  intro n
  induction n using Nat.strong_induction_on with
  | _ n ih =>
    intro files k hlen
    match files with
    | [] =>
      refine ⟨?_, ?_, ?_, ?_⟩ <;>
        simp [createBatches_nil, Nat.div_eq_of_lt (by omega : B - 1 < B)]
    | f :: fs =>
      have hfne : (f :: fs) ≠ [] := by simp
      have hN : 0 < (f :: fs).length := by simp
      have hdlt : ((f :: fs).drop B).length < n := by
        rw [List.length_drop]
        omega
      have ihd := ih ((f :: fs).drop B).length hdlt ((f :: fs).drop B) (k + 1) rfl
      rw [createBatches_cons uuids pfxBase B (f :: fs) k (by omega) hfne]
      by_cases hrest : (f :: fs).drop B = []
      · have hle : (f :: fs).length ≤ B := List.drop_eq_nil_iff.mp hrest
        rw [hrest, createBatches_nil]
        refine ⟨?_, ?_, ?_, ?_⟩
        · simp only [List.length_singleton]
          rw [Nat.div_eq_of_lt_le] <;> omega
        · intro b hb
          simp at hb
        · intro lb hlb
          simp only [List.getLast?_singleton, Option.some.injEq] at hlb
          subst hlb
          simp only [List.take_of_length_le hle]
          by_cases heq : (f :: fs).length = B
          · rw [heq]
            simp
          · have hlt : (f :: fs).length < B := by omega
            rw [Nat.mod_eq_of_lt hlt, if_neg (by omega)]
        · simp [List.take_of_length_le hle]
      · have hBle : B ≤ (f :: fs).length := by
          by_contra hcon
          exact hrest (List.drop_eq_nil_iff.mpr (by omega))
        have hrestB : createBatches uuids pfxBase B ((f :: fs).drop B) (k + 1) ≠ [] := by
          rw [createBatches_cons uuids pfxBase B ((f :: fs).drop B) (k + 1)
            (by omega) hrest]
          simp
        refine ⟨?_, ?_, ?_, ?_⟩
        · rw [List.length_cons, ihd.1, List.length_drop]
          exact (ceilDiv_step (f :: fs).length B hB hN).symm
        · intro b hb
          rw [List.dropLast_cons_of_ne_nil hrestB] at hb
          rcases List.mem_cons.mp hb with rfl | hb'
          · simp only [List.length_take]
            omega
          · exact ihd.2.1 b hb'
        · intro lb hlb
          have hlast : (⟨s3PfxBrand (joinS3Path [pfxBase, uuids k]),
              (f :: fs).take B⟩ ::
              createBatches uuids pfxBase B ((f :: fs).drop B) (k + 1)).getLast? =
              (createBatches uuids pfxBase B ((f :: fs).drop B) (k + 1)).getLast? := by
            match hcb : createBatches uuids pfxBase B ((f :: fs).drop B) (k + 1) with
            | [] => exact absurd hcb hrestB
            | x :: xs => rfl
          rw [hlast] at hlb
          have hresl := ihd.2.2.1 lb hlb
          rw [List.length_drop] at hresl
          rw [Nat.mod_eq_sub_mod hBle]
          exact hresl
        · rw [List.map_cons, List.flatten_cons, ihd.2.2.2, List.take_append_drop]

/-- Witness for C8: three files at capacity 2 form ⌈3/2⌉ = 2 batches,
the first full (2 files), the last short (3 mod 2 = 1 file), and their
concatenation restores the input order. -/
theorem claim8_batching_witness :
    (0 < 2)
    ∧ ((createBatches uuids0 "base" 2 files3 0).length = (files3.length + 2 - 1) / 2)
    ∧ (∀ b ∈ (createBatches uuids0 "base" 2 files3 0).dropLast,
        b.files.length = 2)
    ∧ (∀ lb, (createBatches uuids0 "base" 2 files3 0).getLast? = some lb →
        lb.files.length = if files3.length % 2 = 0 then 2 else files3.length % 2)
    ∧ ((createBatches uuids0 "base" 2 files3 0).map (·.files)).flatten = files3 :=
  ⟨by decide,
   (claim8_batching uuids0 "base" 2 (by decide) files3 0).1,
   (claim8_batching uuids0 "base" 2 (by decide) files3 0).2.1,
   (claim8_batching uuids0 "base" 2 (by decide) files3 0).2.2.1,
   (claim8_batching uuids0 "base" 2 (by decide) files3 0).2.2.2⟩

end Relay
